import Mathlib

/-! Verification of the RISC-V trace-decoder algorithm
(`src/decoder-algorithm-public.c`).

Shallow embedding notes:

* `te_address_t` is a 64-bit unsigned integer; we model addresses as `Nat`
  with all additions performed modulo `2 ^ 64` (`addr_add`, `addr_sum`).
* The instruction-fetch path (`te_get_instruction` + riscv-disassembler +
  the direct-mapped `decoded_cache`) always yields the decode of the
  instruction stored at the requested address: the cache is keyed by the
  exact `pc` and falls back to a fresh decode on mismatch.  We therefore
  model the instruction memory as a pure oracle `TeMem := Nat → te_decoded_instruction`
  and `get_instr mem a := mem a`.  The `num_gets`/`num_same`/`num_hits`
  statistics are diagnostics only and are not modelled.
* `unrecoverable_error` calls `exit(1)`; we model it as an `Except.error`.
  The C `assert` statements are diagnostics compiled out under `NDEBUG`
  and are not modelled as errors.
* The unbounded `while (true)` loops (`follow_execution_path` and the
  `ENDED_NTR` walk in `te_process_te_support`) are modelled with an
  explicit fuel parameter; running out of fuel gives the embedding-only
  error `te_error.out_of_fuel`.
* The packet types `te_inst_t` and `te_support_t` are declared in
  `decoder-algorithm-public.h`, which is not part of the sources.  Their
  fields are modelled from the spec (section 6): `format` (2 bits),
  `subformat`, `branches` (6-bit count), `branch` (1 bit, a `Bool`),
  `branch_map` (up to 31 bits), `address` (64-bit), `updiscon` (1 bit,
  a `Bool`); `te_support_t` carries `support_type`, `qual_status`, and the
  configuration bits `full_address` and `implicit_return`.
-/

/-- Opcode tags used by the predicates of the decoder.  The real `rv_op`
enumeration of the riscv-disassembler has many more opcodes; every opcode
the decoder does not test for behaves like `other`. -/
inductive rv_op : Type
  | beq | bne | blt | bge | bltu | bgeu | c_beqz | c_bnez
  | jal | c_jal | c_j | jalr | c_jalr | c_jr
  | uret | sret | mret | dret
  | auipc | lui | c_lui
  | other
deriving DecidableEq, Repr

/-- One decoded instruction (`te_decoded_instruction_t` with its embedded
`rv_decode`): opcode, destination and first source register, sign-extended
immediate, and the length in bytes returned by `te_get_instruction`. -/
structure te_decoded_instruction : Type where
  op : rv_op
  rd : Nat
  rs1 : Nat
  imm : Int
  length : Nat
deriving DecidableEq, Repr

/-- The instruction-memory oracle (see the header comment). -/
def TeMem : Type := Nat → te_decoded_instruction

/-- Embedding of `discovery_response.call_counter_width` (fixed to 7 in the source). -/
def call_counter_width : Nat := 7

/-- Embedding of `discovery_response.iaddress_lsb` (fixed to 1 in the source). -/
def iaddress_lsb : Nat := 1

/-- Capacity of the return stack:
`1u << (discovery_response.call_counter_width + 2)` = 512. -/
def call_counter_max : Nat := 2 ^ (call_counter_width + 2)

/-- Embedding of `SENTINEL_BAD_ADDRESS`. -/
def sentinel_bad_address : Nat := 0xbadadd

/-- Qualification status of a `te_support` packet (modelled from the spec:
`qual_status` ranges over NO_CHANGE, ENDED_REP, ENDED_NTR, ...). -/
inductive te_qual_status : Type
  | no_change | ended_rep | ended_ntr | other_status
deriving DecidableEq, Repr

/-- Modelled from the spec: `te_support_t` (the header declaring it is not
part of the sources).  It carries the support packet payload and the
decoder configuration bits used by the static constant `te_support`. -/
structure te_support_packet : Type where
  support_type : Nat
  qual_status : te_qual_status
  full_address : Bool
  implicit_return : Bool
deriving DecidableEq, Repr

/-- The static constant `te_support` of the source: differential addresses,
implicit-return mode disabled. -/
def te_support_config : te_support_packet :=
  { support_type := 0, qual_status := te_qual_status.no_change,
    full_address := false, implicit_return := false }

/-- Modelled from the spec: `te_inst_t` (the header declaring it is not part
of the sources).  Field widths per spec section 6; `branch` and `updiscon`
are single bits and are modelled as `Bool`. -/
structure te_inst : Type where
  format : Nat
  subformat : Nat
  branches : Nat
  branch : Bool
  branch_map : Nat
  address : Nat
  updiscon : Bool
deriving DecidableEq, Repr

/-- The decoder state (`te_decoder_state_t`), without the decode cache and
its statistics (diagnostics; see the header comment). -/
structure te_decoder_state : Type where
  pc : Nat
  last_pc : Nat
  address : Nat
  branches : Nat
  branch_map : Nat
  stop_at_last_branch : Bool
  inferred_address : Bool
  start_of_trace : Bool
  call_counter : Nat
  return_stack : Nat → Nat
  instruction_count : Nat

/-- Errors raised through `unrecoverable_error`, plus the embedding-only
`out_of_fuel` (see the header comment). -/
inductive te_error : Type
  | branch_map_depleted
  | unexpected_updiscon
  | stop_without_branches
  | unprocessed_branches
  | missing_sync
  | out_of_fuel
deriving DecidableEq, Repr

/-- Wrap-around 64-bit addition of a signed offset to an address
(C: `te_address_t x; x += imm;`). -/
def addr_add (a : Nat) (i : Int) : Nat :=
  (((a : Int) + i) % ((2 : Int) ^ 64)).toNat

/-- Wrap-around 64-bit addition of two addresses. -/
def addr_sum (a b : Nat) : Nat := (a + b) % 2 ^ 64

/-- Embedding of `te_inst->address << discovery_response.iaddress_lsb` on `te_address_t`. -/
def addr_shift (x : Nat) : Nat := (x <<< iaddress_lsb) % 2 ^ 64

/-- The `MSB` macro applied to the 64-bit packet address field. -/
def msb64 (x : Nat) : Bool := x.testBit 63

/-- Embedding of `get_instr`: fetch-and-decode the instruction at `address`
(pure; see the header comment on the decode cache). -/
def get_instr (mem : TeMem) (address : Nat) : te_decoded_instruction := mem address

/-- Embedding of `instruction_size`. -/
def instruction_size (instr : te_decoded_instruction) : Nat := instr.length

/-- Embedding of `is_branch`. -/
def is_branch (instr : te_decoded_instruction) : Bool :=
  decide (instr.op = rv_op.beq ∨ instr.op = rv_op.bne ∨ instr.op = rv_op.blt ∨
    instr.op = rv_op.bge ∨ instr.op = rv_op.bltu ∨ instr.op = rv_op.bgeu ∨
    instr.op = rv_op.c_beqz ∨ instr.op = rv_op.c_bnez)

/-- Embedding of `is_inferrable_jump`. -/
def is_inferrable_jump (instr : te_decoded_instruction) : Bool :=
  decide (instr.op = rv_op.jal ∨ instr.op = rv_op.c_jal ∨ instr.op = rv_op.c_j ∨
    (instr.op = rv_op.jalr ∧ instr.rs1 = 0))

/-- Embedding of `is_uninferrable_jump`. -/
def is_uninferrable_jump (instr : te_decoded_instruction) : Bool :=
  decide ((instr.op = rv_op.jalr ∧ instr.rs1 ≠ 0) ∨ instr.op = rv_op.c_jalr ∨
    instr.op = rv_op.c_jr)

/-- Embedding of `is_uninferrable_discon`. -/
def is_uninferrable_discon (instr : te_decoded_instruction) : Bool :=
  is_uninferrable_jump instr ||
    decide (instr.op = rv_op.uret ∨ instr.op = rv_op.sret ∨ instr.op = rv_op.mret ∨
      instr.op = rv_op.dret)

/-- Embedding of `is_sequential_jump`. -/
def is_sequential_jump (mem : TeMem) (instr : te_decoded_instruction)
    (prev_addr : Nat) : Bool :=
  if is_uninferrable_jump instr = false then false
  else
    let prev_instr := get_instr mem prev_addr
    if prev_instr.op = rv_op.auipc ∨ prev_instr.op = rv_op.lui ∨
        prev_instr.op = rv_op.c_lui then
      decide (instr.rs1 = prev_instr.rd)
    else false

/-- Embedding of `sequential_jump_target`. -/
def sequential_jump_target (mem : TeMem) (addr prev_addr : Nat) : Nat :=
  let instr := get_instr mem addr
  let prev_instr := get_instr mem prev_addr
  let target0 : Nat := if prev_instr.op = rv_op.auipc then prev_addr else 0
  let target1 : Nat := addr_add target0 prev_instr.imm
  if instr.op = rv_op.jalr then addr_add target1 instr.imm else target1

/-- Embedding of `is_call`. -/
def is_call (instr : te_decoded_instruction) : Bool :=
  decide ((instr.op = rv_op.jalr ∧ instr.rd = 1) ∨ instr.op = rv_op.c_jalr ∨
    (instr.op = rv_op.jal ∧ instr.rd = 1) ∨ instr.op = rv_op.c_jal)

/-- Embedding of `is_implicit_return` (the static configuration disables implicit-return
mode, exactly as in the source). -/
def is_implicit_return (s : te_decoder_state) (instr : te_decoded_instruction) :
    Bool :=
  if te_support_config.implicit_return = false then false
  else if (instr.op = rv_op.jalr ∧ instr.rs1 = 1 ∧ instr.rd = 0) ∨
      (instr.op = rv_op.c_jr ∧ instr.rs1 = 1) then
    decide (0 < s.call_counter)
  else false

/-- Embedding of `is_taken_branch`: tests whether the instruction is a branch and, if so,
consumes one branch-map bit; returns the taken flag with the updated state. -/
def is_taken_branch (s : te_decoder_state) (instr : te_decoded_instruction) :
    Except te_error (Bool × te_decoder_state) :=
  if is_branch instr = false then Except.ok (false, s)
  else if s.branches = 0 then Except.error te_error.branch_map_depleted
  else
    Except.ok (decide (s.branch_map &&& 1 = 0),
      { s with branches := s.branches - 1, branch_map := s.branch_map >>> 1 })

/-- Embedding of `push_return_stack`: on overflow delete the oldest entry (index 0) and
shift the rest down, then store the link at index `call_counter` and
increment it. -/
def push_return_stack (mem : TeMem) (s : te_decoder_state) (address : Nat) :
    te_decoder_state :=
  let s1 :=
    if s.call_counter = call_counter_max then
      { s with call_counter := s.call_counter - 1,
               return_stack := fun i =>
                 if i < s.call_counter - 1 then s.return_stack (i + 1)
                 else s.return_stack i }
    else s
  let link := addr_add address ((instruction_size (get_instr mem address) : Int))
  { s1 with
    return_stack := fun i => if i = s1.call_counter then link else s1.return_stack i,
    call_counter := s1.call_counter + 1 }

/-- Embedding of `pop_return_stack`, exactly as written in the source: it reads
`return_stack[call_counter]` and then decrements `call_counter`. -/
def pop_return_stack (s : te_decoder_state) : Nat × te_decoder_state :=
  (s.return_stack s.call_counter, { s with call_counter := s.call_counter - 1 })

/-- The PC-update dispatch of `next_pc` (everything before the
`is_call`/`last_pc`/`disseminate_pc` epilogue). -/
def next_pc_core (mem : TeMem) (s : te_decoder_state) (address : Nat) :
    Except te_error te_decoder_state :=
  let instr := get_instr mem s.pc
  if is_inferrable_jump instr then
    Except.ok { s with pc := addr_add s.pc instr.imm }
  else if is_sequential_jump mem instr s.last_pc then
    Except.ok { s with pc := sequential_jump_target mem s.pc s.last_pc }
  else if is_implicit_return s instr then
    Except.ok (let pr := pop_return_stack s; { pr.2 with pc := pr.1 })
  else if is_uninferrable_discon instr then
    if s.stop_at_last_branch then Except.error te_error.unexpected_updiscon
    else Except.ok { s with pc := address }
  else
    match is_taken_branch s instr with
    | Except.error e => Except.error e
    | Except.ok (taken, s1) =>
      if taken then Except.ok { s1 with pc := addr_add s1.pc instr.imm }
      else Except.ok { s1 with pc := addr_add s1.pc ((instruction_size instr : Nat) : Int) }

/-- The epilogue of `next_pc`: push the pre-step PC on a call, set
`last_pc`, and emit one retirement through `disseminate_pc` (which also
advances `instruction_count`). -/
def next_pc_finish (mem : TeMem) (instr : te_decoded_instruction) (this_pc : Nat)
    (s1 : te_decoder_state) : te_decoder_state × List (Nat × Nat) :=
  let s2 := if is_call instr then push_return_stack mem s1 this_pc else s1
  let s3 := { s2 with last_pc := this_pc }
  ({ s3 with instruction_count := s3.instruction_count + 1 }, [(this_pc, s3.pc)])

/-- Embedding of `next_pc`: one step of the path follower; returns the new state and the
list of retirements emitted (always exactly one on success). -/
def next_pc (mem : TeMem) (s : te_decoder_state) (address : Nat) :
    Except te_error (te_decoder_state × List (Nat × Nat)) :=
  match next_pc_core mem s address with
  | Except.error e => Except.error e
  | Except.ok s1 => Except.ok (next_pc_finish mem (get_instr mem s.pc) s.pc s1)

/-- The rule table of spec section 4.5, written from the words of the spec:
choose exactly one PC rule in priority order (inferrable jump,
sequentially-inferrable jump, implicit return, uninferrable discontinuity,
taken branch, fall-through), with branch-map consumption per the
consumption rule; then push the pre-step PC on a call, set `last_pc`, and
emit one retirement. -/
def next_pc_spec (mem : TeMem) (s : te_decoder_state) (address : Nat) :
    Except te_error (te_decoder_state × List (Nat × Nat)) :=
  let old_pc := s.pc
  let instr := get_instr mem s.pc
  let step : Except te_error (Nat × te_decoder_state) :=
    if is_inferrable_jump instr then
      Except.ok (addr_add s.pc instr.imm, s)
    else if is_sequential_jump mem instr s.last_pc then
      Except.ok (sequential_jump_target mem s.pc s.last_pc, s)
    else if is_implicit_return s instr then
      Except.ok ((pop_return_stack s).1, (pop_return_stack s).2)
    else if is_uninferrable_discon instr then
      if s.stop_at_last_branch then Except.error te_error.unexpected_updiscon
      else Except.ok (address, s)
    else if is_branch instr then
      if s.branches = 0 then Except.error te_error.branch_map_depleted
      else
        let taken := !(s.branch_map.testBit 0)
        let s1 := { s with branches := s.branches - 1,
                           branch_map := s.branch_map >>> 1 }
        Except.ok
          (if taken then addr_add s.pc instr.imm
           else addr_add s.pc ((instr.length : Nat) : Int), s1)
    else
      Except.ok (addr_add s.pc ((instr.length : Nat) : Int), s)
  match step with
  | Except.error e => Except.error e
  | Except.ok (npc, s1) =>
    let s2 := { s1 with pc := npc }
    let s3 := if is_call instr then push_return_stack mem s2 old_pc else s2
    Except.ok
      ({ s3 with last_pc := old_pc, instruction_count := s3.instruction_count + 1 },
        [(old_pc, npc)])

/-- The pending-branch threshold used by the stopping conditions of
`follow_execution_path`: 1 if the instruction at `pc` is a branch, else 0. -/
def branch_threshold (mem : TeMem) (pc : Nat) : Nat :=
  if is_branch (get_instr mem pc) then 1 else 0

/-- The `while (true)` loop of `follow_execution_path`, with fuel.
`previous_address` is the PC the walk started from; `acc` accumulates the
retirements emitted so far. -/
def follow_loop (mem : TeMem) (pkt : te_inst) (address previous_address : Nat) :
    Nat → te_decoder_state → List (Nat × Nat) →
    Except te_error (te_decoder_state × List (Nat × Nat)) :=
  fun fuel s acc =>
    match fuel with
    | 0 => Except.error te_error.out_of_fuel
    | Nat.succ fuel =>
      if s.stop_at_last_branch = true ∧ s.branches = 0 then
        Except.error te_error.stop_without_branches
      else if s.inferred_address = true then
        match next_pc mem s previous_address with
        | Except.error e => Except.error e
        | Except.ok (s1, tr) =>
          follow_loop mem pkt address previous_address fuel
            (if s1.pc = previous_address then { s1 with inferred_address := false }
             else s1)
            (acc ++ tr)
      else
        match next_pc mem s address with
        | Except.error e => Except.error e
        | Except.ok (s1, tr) =>
          if s1.branches = 1 ∧ is_branch (get_instr mem s1.pc) = true ∧
              s1.stop_at_last_branch = true then
            Except.ok ({ s1 with stop_at_last_branch := false }, acc ++ tr)
          else if s1.pc = address ∧
              is_uninferrable_discon (get_instr mem s1.last_pc) = true then
            if branch_threshold mem s1.pc < s1.branches then
              Except.error te_error.unprocessed_branches
            else Except.ok (s1, acc ++ tr)
          else if pkt.format ≠ 3 ∧ s1.pc = address ∧
              pkt.updiscon = msb64 pkt.address ∧
              s1.branches = branch_threshold mem s1.pc then
            Except.ok ({ s1 with inferred_address := true }, acc ++ tr)
          else if pkt.format = 3 ∧ s1.pc = address ∧
              s1.branches = branch_threshold mem s1.pc then
            Except.ok (s1, acc ++ tr)
          else follow_loop mem pkt address previous_address fuel s1 (acc ++ tr)

/-- Embedding of `follow_execution_path`: run the walk loop, remembering the entry PC as
`previous_address`. -/
def follow_execution_path (mem : TeMem) (pkt : te_inst) (address : Nat)
    (fuel : Nat) (s : te_decoder_state) :
    Except te_error (te_decoder_state × List (Nat × Nat)) :=
  follow_loop mem pkt address s.pc fuel s []

/-- The state updates `te_process_te_inst` performs for a format 0/1/2
packet before calling `follow_execution_path` (address update and format-1
branch-map merge). -/
def non_sync_dispatch (s : te_decoder_state) (p : te_inst) : te_decoder_state :=
  let s1 :=
    if p.format = 2 ∨ p.branches ≠ 0 then
      { s with stop_at_last_branch := false,
               address :=
                 if te_support_config.full_address then addr_shift p.address
                 else addr_sum s.address (addr_shift p.address) }
    else s
  if p.format = 1 then
    { s1 with stop_at_last_branch := decide (p.branches = 0),
              branch_map := s1.branch_map ||| (p.branch_map <<< s1.branches),
              branches := s1.branches +
                (if p.branches = 0 then 31 else p.branches) }
  else s1

/-- The state updates `te_process_te_inst` performs for a format-3 packet
before choosing between the walk and the resynchronisation path: clear
`inferred_address`, latch the absolute address, expunge pending branches
on subformat 1 or at the start of trace, and record one pending branch
bit if the instruction at the address is a branch. -/
def sync_dispatch (mem : TeMem) (s : te_decoder_state) (p : te_inst) :
    te_decoder_state :=
  let s1 :=
    if p.subformat = 1 ∨ s.start_of_trace = true then
      { s with inferred_address := false, address := addr_shift p.address,
               branches := 0, branch_map := 0 }
    else { s with inferred_address := false, address := addr_shift p.address }
  if is_branch (get_instr mem s1.address) then
    { s1 with
      branch_map := s1.branch_map ||| ((if p.branch then 1 else 0) <<< s1.branches),
      branches := s1.branches + 1 }
  else s1

/-- Embedding of `te_process_te_inst`. -/
def process_te_inst (mem : TeMem) (fuel : Nat) (s : te_decoder_state)
    (p : te_inst) : Except te_error (te_decoder_state × List (Nat × Nat)) :=
  if p.format = 3 then
    let s2 := sync_dispatch mem s p
    if p.subformat = 0 ∧ s2.start_of_trace = false then
      match follow_execution_path mem p s2.address fuel s2 with
      | Except.error e => Except.error e
      | Except.ok (s3, tr) =>
        Except.ok ({ s3 with start_of_trace := false, call_counter := 0 }, tr)
    else
      let s3 := { s2 with last_pc := s2.pc, pc := s2.address }
      let s4 := { s3 with instruction_count := s3.instruction_count + 1 }
      let s5 := { s4 with last_pc := s4.pc }
      Except.ok ({ s5 with start_of_trace := false, call_counter := 0 },
        [(s3.last_pc, s3.pc)])
  else
    if s.start_of_trace = true then Except.error te_error.missing_sync
    else
      let s2 := non_sync_dispatch s p
      follow_execution_path mem p s2.address fuel s2

/-- The `while (true)` loop of the `ENDED_NTR` handling in
`te_process_te_support`, with fuel. -/
def ntr_loop (mem : TeMem) (previous_address : Nat) :
    Nat → te_decoder_state → List (Nat × Nat) →
    Except te_error (te_decoder_state × List (Nat × Nat)) :=
  fun fuel s acc =>
    match fuel with
    | 0 => Except.error te_error.out_of_fuel
    | Nat.succ fuel =>
      match next_pc mem s previous_address with
      | Except.error e => Except.error e
      | Except.ok (s1, tr) =>
        if s1.pc = previous_address then Except.ok (s1, acc ++ tr)
        else ntr_loop mem previous_address fuel s1 (acc ++ tr)

/-- Embedding of `te_process_te_support`. -/
def process_te_support (mem : TeMem) (fuel : Nat) (s : te_decoder_state)
    (p : te_support_packet) :
    Except te_error (te_decoder_state × List (Nat × Nat)) :=
  if p.support_type = 0 then
    let s1 :=
      if p.qual_status = te_qual_status.ended_ntr ∨
          p.qual_status = te_qual_status.ended_rep then
        { s with start_of_trace := true }
      else s
    if p.qual_status = te_qual_status.ended_ntr ∧ s1.inferred_address = true then
      ntr_loop mem s1.pc fuel { s1 with inferred_address := false } []
    else Except.ok (s1, [])
  else Except.ok (s, [])

/-- Embedding of `te_open_trace_decoder`: the freshly opened decoder state (zeroed
memory, sentinels, `start_of_trace = true`). -/
def init_decoder : te_decoder_state :=
  { pc := sentinel_bad_address, last_pc := sentinel_bad_address,
    address := sentinel_bad_address, branches := 0, branch_map := 0,
    stop_at_last_branch := false, inferred_address := false,
    start_of_trace := true, call_counter := 0,
    return_stack := fun _ => 0, instruction_count := 0 }

/-- Process a whole list of `te_inst` packets in order, accumulating the
emitted retirements. -/
def run_te_insts (mem : TeMem) (fuel : Nat) (s : te_decoder_state)
    (ps : List te_inst) : Except te_error (te_decoder_state × List (Nat × Nat)) :=
  ps.foldl
    (fun acc p =>
      match acc with
      | Except.error e => Except.error e
      | Except.ok (st, tr) =>
        match process_te_inst mem fuel st p with
        | Except.error e => Except.error e
        | Except.ok (st2, tr2) => Except.ok (st2, tr ++ tr2))
    (Except.ok (s, []))

/-- The link value stored by `push_return_stack` for a call at `a`:
the address of the next spatial instruction. -/
def link_of (mem : TeMem) (a : Nat) : Nat :=
  addr_add a ((instruction_size (get_instr mem a) : Nat) : Int)

/-- Push a list of call addresses onto the return stack, oldest first. -/
def push_many (mem : TeMem) (s : te_decoder_state) (addrs : List Nat) :
    te_decoder_state :=
  addrs.foldl (push_return_stack mem) s

/-- The return stack holds the links of the most recent
`min past.length call_counter_max` pushed addresses, in push order. -/
def stack_model_inv (mem : TeMem) (s : te_decoder_state) (past : List Nat) : Prop :=
  s.call_counter = min past.length call_counter_max ∧
  ∀ i, i < s.call_counter →
    s.return_stack i =
      link_of mem (past.getD (past.length - s.call_counter + i) 0)

/-- The branch bookkeeping invariant holding between packets: at most one
pending branch bit, and no `branch_map` bit at or above position
`branches`. -/
def branch_inv (s : te_decoder_state) : Prop :=
  s.branches ≤ 1 ∧ s.branch_map < 2 ^ s.branches

/-- Well-formedness of a `te_inst` packet as produced by a conforming
encoder: a format-1 packet carries at most 31 branches and no `branch_map`
bit above its effective branch count, and a format-3 packet has subformat
0 (sync) or 1 (exception report). -/
def wf_te_inst (p : te_inst) : Prop :=
  (p.format = 1 →
    p.branches ≤ 31 ∧
    p.branch_map < 2 ^ (if p.branches = 0 then 31 else p.branches)) ∧
  (p.format = 3 → p.subformat ≤ 1)

/-- Decoder states reachable from the freshly opened decoder by processing
well-formed `te_inst` packets and arbitrary `te_support` packets. -/
inductive reachable (mem : TeMem) : te_decoder_state → Prop where
  | init : reachable mem init_decoder
  | inst_step (s : te_decoder_state) (p : te_inst) (fuel : Nat)
      (s1 : te_decoder_state) (tr : List (Nat × Nat)) :
      reachable mem s → wf_te_inst p →
      process_te_inst mem fuel s p = Except.ok (s1, tr) → reachable mem s1
  | support_step (s : te_decoder_state) (p : te_support_packet) (fuel : Nat)
      (s1 : te_decoder_state) (tr : List (Nat × Nat)) :
      reachable mem s →
      process_te_support mem fuel s p = Except.ok (s1, tr) → reachable mem s1

/-- Extract the comparable fields
`(pc, last_pc, branches, branch_map, inferred_address, stop_at_last_branch)`
of the resulting state of a decoder run, if it succeeded. -/
def state_view (r : Except te_error (te_decoder_state × List (Nat × Nat))) :
    Option (Nat × Nat × Nat × Nat × Bool × Bool) :=
  (Except.toOption r).map
    (fun p => (p.1.pc, p.1.last_pc, p.1.branches, p.1.branch_map,
      p.1.inferred_address, p.1.stop_at_last_branch))

/-- A conditional branch instruction (`beq` with immediate 4, length 4). -/
def instr_beq4 : te_decoded_instruction :=
  { op := rv_op.beq, rd := 0, rs1 := 0, imm := 4, length := 4 }

/-- An ordinary non-branch, non-jump instruction of length 4. -/
def instr_nop : te_decoded_instruction :=
  { op := rv_op.other, rd := 0, rs1 := 0, imm := 0, length := 4 }

/-- An uninferrable jump: `jalr x0, 8(x5)`. -/
def instr_jalr_x5 : te_decoded_instruction :=
  { op := rv_op.jalr, rd := 0, rs1 := 5, imm := 8, length := 4 }

/-- A program whose every location holds `instr_beq4`. -/
def mem_beq : TeMem := fun _ => instr_beq4

/-- A program whose every location holds `instr_nop`. -/
def mem_nop : TeMem := fun _ => instr_nop

/-- A program whose every location holds `instr_jalr_x5`. -/
def mem_jalr : TeMem := fun _ => instr_jalr_x5

/-- A decoder state used to refute C1: one valid stack entry at index 0;
slot 1 holds the stale value 57005 that was never pushed. -/
def c1_state : te_decoder_state :=
  { init_decoder with
    call_counter := 1,
    return_stack := fun i => if i = 0 then 4100 else 57005 }

/-- Decoder state entering the format-1 packet of the C3 counterexample:
one pending branch bit, about to receive the zero-sentinel (31 more). -/
def c3_state : te_decoder_state :=
  { pc := 4096, last_pc := 0, address := 4220, branches := 1, branch_map := 0,
    stop_at_last_branch := false, inferred_address := false,
    start_of_trace := false, call_counter := 0,
    return_stack := fun _ => 0, instruction_count := 3 }

/-- The format-1 packet of the C3 counterexample: `branches = 0` is the
zero-means-31 sentinel, so the walk runs with `stop_at_last_branch` set. -/
def c3_pkt : te_inst :=
  { format := 1, subformat := 0, branches := 0, branch := false,
    branch_map := 0, address := 0, updiscon := false }

/-- The format-3 subformat-2 packet stream of the C8 counterexample: each
packet resynchronises to a branch instruction without resetting the
pending-branch bookkeeping, so `branches` grows without bound. -/
def c8_packets : List te_inst :=
  (List.range 33).map
    (fun k =>
      { format := 3, subformat := 2, branches := 0, branch := false,
        branch_map := 0, address := k + 1, updiscon := false })

/-- State used for the C3 amended witness: PC 4096 in a `nop` program. -/
def c3w_state : te_decoder_state :=
  { pc := 4096, last_pc := 4092, address := 4100, branches := 0, branch_map := 0,
    stop_at_last_branch := false, inferred_address := false,
    start_of_trace := false, call_counter := 0,
    return_stack := fun _ => 0, instruction_count := 0 }

/-- The state `c3w_state` after one fall-through step of `next_pc`. -/
def c3w_state1 : te_decoder_state :=
  { pc := 4100, last_pc := 4096, address := 4100, branches := 0, branch_map := 0,
    stop_at_last_branch := false, inferred_address := false,
    start_of_trace := false, call_counter := 0,
    return_stack := fun _ => 0, instruction_count := 1 }

/-- A `lui x5, 0x2` instruction (immediate already scaled: 8192). -/
def instr_lui_x5 : te_decoded_instruction :=
  { op := rv_op.lui, rd := 5, rs1 := 0, imm := 8192, length := 4 }

/-- A program with `lui x5` at 8192 and `jalr x0, 8(x5)` everywhere else. -/
def mem_c6 : TeMem := fun a => if a = 8192 then instr_lui_x5 else instr_jalr_x5

/-- A full return stack (`call_counter = call_counter_max`) holding the
value `i + 1000` at slot `i`. -/
def c5_full_state : te_decoder_state :=
  { init_decoder with
    call_counter := 512,
    return_stack := fun i => i + 1000 }

/-- A format-3 subformat-1 (exception sync) packet reporting address
2048 (4096 after the address shift). -/
def c8w_pkt : te_inst :=
  { format := 3, subformat := 1, branches := 0, branch := false,
    branch_map := 0, address := 2048, updiscon := false }

/-- The decoder state after processing `c8w_pkt` on the freshly opened
decoder over `mem_nop`. -/
def c8w_state : te_decoder_state :=
  { pc := 4096, last_pc := 4096, address := 4096, branches := 0,
    branch_map := 0, stop_at_last_branch := false, inferred_address := false,
    start_of_trace := false, call_counter := 0,
    return_stack := fun _ => 0, instruction_count := 1 }

/-! Helper lemmas -/

theorem decide_and_one (x : Nat) : decide (x &&& 1 = 0) = !x.testBit 0 := by
  rw [Nat.and_one_is_mod, Nat.testBit_zero]
  rcases Nat.mod_two_eq_zero_or_one x with h | h <;> simp [h]

theorem undiscon_not_inferrable (instr : te_decoded_instruction) :
    is_uninferrable_discon instr = true → is_inferrable_jump instr = false := by
  cases hop : instr.op <;>
    simp [is_uninferrable_discon, is_uninferrable_jump, is_inferrable_jump, hop]

theorem undiscon_not_branch (instr : te_decoded_instruction) :
    is_uninferrable_discon instr = true → is_branch instr = false := by
  cases hop : instr.op <;>
    simp [is_uninferrable_discon, is_uninferrable_jump, is_branch, hop]

/-! Claim theorems -/

/-- C1 (code_bug evidence): on the concrete state `c1_state`
(`call_counter = 1`, `return_stack[0] = 4100` the only pushed link,
`return_stack[1] = 57005` stale), `pop_return_stack` returns the stale
slot `return_stack[call_counter] = 57005` instead of the most recently
pushed link `return_stack[call_counter-1] = 4100`, although it does
decrement `call_counter` by one.  Moreover a push of address 256 onto the
empty stack followed by a pop yields 0, not the pushed link
`link_of mem_nop 256 = 260`: the push/pop pair of the code itself fails to
round-trip, so the code, not the claim, is wrong. -/
theorem te_c1_pop_return_stack_bug :
    (pop_return_stack c1_state).1 = 57005 ∧
    c1_state.return_stack (c1_state.call_counter - 1) = 4100 ∧
    (pop_return_stack c1_state).1 ≠
      c1_state.return_stack (c1_state.call_counter - 1) ∧
    (pop_return_stack c1_state).2.call_counter = 0 ∧
    (pop_return_stack (push_return_stack mem_nop init_decoder 256)).1 = 0 ∧
    link_of mem_nop 256 = 260 := by
  refine ⟨rfl, rfl, by decide, rfl, rfl, rfl⟩

/-- C4: branch resolution.  A non-branch instruction leaves the state
untouched and yields `taken = false`; a branch with `branches = 0` raises
the branch-map-depletion error; a branch with `branches > 0` yields
`taken` = the negation of bit 0 of `branch_map`, shifts `branch_map` right
by one, and decrements `branches` by one, changing nothing else. -/
theorem te_c4_is_taken_branch :
    ∀ (s : te_decoder_state) (instr : te_decoded_instruction),
      (is_branch instr = false → is_taken_branch s instr = Except.ok (false, s)) ∧
      (is_branch instr = true → s.branches = 0 →
        is_taken_branch s instr = Except.error te_error.branch_map_depleted) ∧
      (is_branch instr = true → 0 < s.branches →
        is_taken_branch s instr =
          Except.ok (!(s.branch_map.testBit 0),
            { s with branches := s.branches - 1,
                     branch_map := s.branch_map >>> 1 })) := by
  intro s instr
  refine ⟨?_, ?_, ?_⟩
  · intro h
    simp [is_taken_branch, h]
  · intro h h0
    simp [is_taken_branch, h, h0]
  · intro h h0
    have h1 : ¬s.branches = 0 := by omega
    simp [is_taken_branch, h, h1, decide_and_one]
    rcases Nat.mod_two_eq_zero_or_one s.branch_map with h2 | h2 <;> simp [h2]

/-- C4 witness: concrete instances of all three cases. -/
theorem te_c4_is_taken_branch_witness :
    is_taken_branch c3_state instr_nop = Except.ok (false, c3_state) ∧
    is_taken_branch init_decoder instr_beq4 =
      Except.error te_error.branch_map_depleted ∧
    is_taken_branch c3_state instr_beq4 =
      Except.ok (!((0 : Nat).testBit 0),
        { c3_state with branches := c3_state.branches - 1,
                        branch_map := c3_state.branch_map >>> 1 }) :=
  ⟨(te_c4_is_taken_branch c3_state instr_nop).1 (by decide),
   (te_c4_is_taken_branch init_decoder instr_beq4).2.1 (by decide) (by decide),
   (te_c4_is_taken_branch c3_state instr_beq4).2.2 (by decide) (by decide)⟩

/-- C9: if the current instruction is an uninferrable discontinuity that is
neither a sequentially-inferrable jump nor an implicit return, and
`stop_at_last_branch` is set, `next_pc` raises the unrecoverable
unexpected-uninferrable-discontinuity error instead of jumping to the
reported address. -/
theorem te_c9_unexpected_updiscon :
    ∀ (mem : TeMem) (s : te_decoder_state) (address : Nat),
      is_uninferrable_discon (get_instr mem s.pc) = true →
      is_sequential_jump mem (get_instr mem s.pc) s.last_pc = false →
      is_implicit_return s (get_instr mem s.pc) = false →
      s.stop_at_last_branch = true →
      next_pc mem s address = Except.error te_error.unexpected_updiscon := by
  intro mem s address h1 h2 h3 h4
  have h0 : is_inferrable_jump (get_instr mem s.pc) = false :=
    undiscon_not_inferrable _ h1
  unfold next_pc next_pc_core
  simp [h0, h1, h2, h3, h4]

/-- C9 witness: in a program of `jalr x0, 8(x5)` instructions with
`stop_at_last_branch` set, the step fails with the expected error. -/
theorem te_c9_unexpected_updiscon_witness :
    next_pc mem_jalr
      { c3w_state with stop_at_last_branch := true } 0 =
      Except.error te_error.unexpected_updiscon :=
  te_c9_unexpected_updiscon mem_jalr
    { c3w_state with stop_at_last_branch := true } 0
    (by decide) (by decide) (by decide) (by decide)

/-- C10: a `te_support` packet with nonzero `support_type` leaves the whole
decoder state unchanged and emits no retirements, whatever its
`qual_status`; the `start_of_trace` reset and the ENDED_NTR walk happen
only under `support_type = 0`, which `process_te_support` tests first. -/
theorem te_c10_support_nonzero_noop :
    ∀ (mem : TeMem) (fuel : Nat) (s : te_decoder_state) (p : te_support_packet),
      p.support_type ≠ 0 →
      process_te_support mem fuel s p = Except.ok (s, []) := by
  intro mem fuel s p h
  simp [process_te_support, h]

/-- C10 witness: a nonzero-`support_type` packet carrying `ENDED_NTR` is a
no-op even on a state with `inferred_address` pending. -/
theorem te_c10_support_nonzero_noop_witness :
    process_te_support mem_nop 5
      { c3w_state with inferred_address := true }
      { support_type := 2, qual_status := te_qual_status.ended_ntr,
        full_address := false, implicit_return := false } =
      Except.ok ({ c3w_state with inferred_address := true }, []) :=
  te_c10_support_nonzero_noop mem_nop 5
    { c3w_state with inferred_address := true }
    { support_type := 2, qual_status := te_qual_status.ended_ntr,
      full_address := false, implicit_return := false } (by decide)

/-- C6: classification and target of sequentially-inferrable jumps.  An
instruction is a sequentially-inferrable jump iff it is an uninferrable
jump and the instruction at the previous address is `auipc`, `lui` or
`c.lui` whose `rd` equals the `rs1` of the jump.  The target is
`prev_addr + prev.imm` when the previous opcode is `auipc`, and `prev.imm`
alone (from a zero base) for `lui`/`c.lui`; the current instruction field
`imm` is added additionally exactly when its opcode is `jalr`. -/
theorem te_c6_sequential_jump :
    ∀ (mem : TeMem) (instr : te_decoded_instruction) (addr prev_addr : Nat),
      (is_sequential_jump mem instr prev_addr = true ↔
        (is_uninferrable_jump instr = true ∧
          ((get_instr mem prev_addr).op = rv_op.auipc ∨
           (get_instr mem prev_addr).op = rv_op.lui ∨
           (get_instr mem prev_addr).op = rv_op.c_lui) ∧
          instr.rs1 = (get_instr mem prev_addr).rd)) ∧
      ((get_instr mem prev_addr).op = rv_op.auipc →
        sequential_jump_target mem addr prev_addr =
          (if (get_instr mem addr).op = rv_op.jalr then
            addr_add (addr_add prev_addr (get_instr mem prev_addr).imm)
              (get_instr mem addr).imm
          else addr_add prev_addr (get_instr mem prev_addr).imm)) ∧
      (((get_instr mem prev_addr).op = rv_op.lui ∨
        (get_instr mem prev_addr).op = rv_op.c_lui) →
        sequential_jump_target mem addr prev_addr =
          (if (get_instr mem addr).op = rv_op.jalr then
            addr_add (addr_add 0 (get_instr mem prev_addr).imm)
              (get_instr mem addr).imm
          else addr_add 0 (get_instr mem prev_addr).imm)) := by
  intro mem instr addr prev_addr
  refine ⟨?_, ?_, ?_⟩
  · cases huj : is_uninferrable_jump instr
    · simp [is_sequential_jump, huj]
    · by_cases hop : (get_instr mem prev_addr).op = rv_op.auipc ∨
          (get_instr mem prev_addr).op = rv_op.lui ∨
          (get_instr mem prev_addr).op = rv_op.c_lui
      · simp [is_sequential_jump, huj, hop]
      · simp [is_sequential_jump, huj, hop]
  · intro hprev
    simp [sequential_jump_target, hprev]
  · intro hprev
    rcases hprev with h | h <;> simp [sequential_jump_target, h]

/-- C6 witness: `lui x5, 0x2` at 8192 followed by `jalr x0, 8(x5)` at 8196
is classified as a sequentially-inferrable jump with target
`0 + 8192 + 8 = 8200`. -/
theorem te_c6_sequential_jump_witness :
    is_sequential_jump mem_c6 (get_instr mem_c6 8196) 8192 = true ∧
    sequential_jump_target mem_c6 8196 8192 = 8200 :=
  ⟨(te_c6_sequential_jump mem_c6 (get_instr mem_c6 8196) 8196 8192).1.mpr
      ⟨by decide, by decide, by decide⟩,
   ((te_c6_sequential_jump mem_c6 (get_instr mem_c6 8196) 8196 8192).2.2
      (by decide)).trans (by decide)⟩

/-- C7: dispatch of a format-1 packet (given the documented pre-condition
that at most one branch bit is pending, in bit 0): it sets
`stop_at_last_branch` exactly when the packet field `branches` is 0, ORs
the packet `branch_map` into the decoder `branch_map` shifted left by
the pending count, and then adds the packet field `branches` — or 31 for
the zero sentinel — to `branches`. -/
theorem te_c7_format1_dispatch :
    ∀ (s : te_decoder_state) (p : te_inst),
      p.format = 1 →
      s.branches ≤ 1 →
      (s.branches = 1 → s.branch_map ≤ 1) →
      (non_sync_dispatch s p).stop_at_last_branch = decide (p.branches = 0) ∧
      (non_sync_dispatch s p).branch_map =
        (s.branch_map ||| (p.branch_map <<< s.branches)) ∧
      (non_sync_dispatch s p).branches =
        s.branches + (if p.branches = 0 then 31 else p.branches) := by
  intro s p h1 _ _
  have h2 : ¬p.format = 2 := by omega
  by_cases hb : p.branches = 0 <;> simp [non_sync_dispatch, h1, h2, hb]

/-- C7 witness: from one pending bit (`branches = 1`, `branch_map = 1`), a
format-1 packet with `branches = 2`, `branch_map = 3` gives
`stop_at_last_branch = false`, `branch_map = 1 ||| (3 <<< 1) = 7` and
`branches = 3`. -/
theorem te_c7_format1_dispatch_witness :
    (non_sync_dispatch { c3_state with branch_map := 1 }
      { format := 1, subformat := 0, branches := 2, branch := false,
        branch_map := 3, address := 0, updiscon := false }).stop_at_last_branch =
      false ∧
    (non_sync_dispatch { c3_state with branch_map := 1 }
      { format := 1, subformat := 0, branches := 2, branch := false,
        branch_map := 3, address := 0, updiscon := false }).branch_map = 7 ∧
    (non_sync_dispatch { c3_state with branch_map := 1 }
      { format := 1, subformat := 0, branches := 2, branch := false,
        branch_map := 3, address := 0, updiscon := false }).branches = 3 :=
  ⟨((te_c7_format1_dispatch { c3_state with branch_map := 1 }
      { format := 1, subformat := 0, branches := 2, branch := false,
        branch_map := 3, address := 0, updiscon := false }
      (by decide) (by decide) (fun _ => by decide)).1).trans (by decide),
   ((te_c7_format1_dispatch { c3_state with branch_map := 1 }
      { format := 1, subformat := 0, branches := 2, branch := false,
        branch_map := 3, address := 0, updiscon := false }
      (by decide) (by decide) (fun _ => by decide)).2.1).trans (by decide),
   ((te_c7_format1_dispatch { c3_state with branch_map := 1 }
      { format := 1, subformat := 0, branches := 2, branch := false,
        branch_map := 3, address := 0, updiscon := false }
      (by decide) (by decide) (fun _ => by decide)).2.2).trans (by decide)⟩

theorem push_cc_of_ne (mem : TeMem) (s : te_decoder_state) (a : Nat)
    (h : s.call_counter ≠ call_counter_max) :
    (push_return_stack mem s a).call_counter = s.call_counter + 1 := by
  simp [push_return_stack, h]

theorem push_stack_of_ne (mem : TeMem) (s : te_decoder_state) (a : Nat)
    (h : s.call_counter ≠ call_counter_max) :
    (push_return_stack mem s a).return_stack =
      fun i => if i = s.call_counter then link_of mem a else s.return_stack i := by
  simp [push_return_stack, h, link_of]

theorem push_cc_of_eq (mem : TeMem) (s : te_decoder_state) (a : Nat)
    (h : s.call_counter = call_counter_max) :
    (push_return_stack mem s a).call_counter = call_counter_max := by
  have h0 : 0 < call_counter_max := by decide
  simp [push_return_stack, h]
  omega

theorem push_stack_of_eq (mem : TeMem) (s : te_decoder_state) (a : Nat)
    (h : s.call_counter = call_counter_max) :
    (push_return_stack mem s a).return_stack =
      fun i =>
        if i = call_counter_max - 1 then link_of mem a
        else if i < call_counter_max - 1 then s.return_stack (i + 1)
        else s.return_stack i := by
  funext i
  simp [push_return_stack, h, link_of]

theorem push_step_model (mem : TeMem) (s : te_decoder_state) (a : Nat)
    (past : List Nat) (h : stack_model_inv mem s past) :
    stack_model_inv mem (push_return_stack mem s a) (past ++ [a]) := by
  obtain ⟨hcc, hst⟩ := h
  have hmaxpos : 0 < call_counter_max := by decide
  by_cases hfull : s.call_counter = call_counter_max
  · have hlen : call_counter_max ≤ past.length := by omega
    refine ⟨?_, ?_⟩
    · rw [push_cc_of_eq mem s a hfull]
      simp
      omega
    · intro i hi
      rw [push_cc_of_eq mem s a hfull] at hi ⊢
      rw [push_stack_of_eq mem s a hfull]
      simp only [List.length_append, List.length_singleton]
      by_cases h1 : i = call_counter_max - 1
      · subst h1
        have h2 : past.length + 1 - call_counter_max + (call_counter_max - 1) =
            past.length := by omega
        rw [h2, List.getD_append_right _ _ _ _ (Nat.le_refl _)]
        simp
      · have h2 : i < call_counter_max - 1 := by omega
        have h3 : ¬i = call_counter_max - 1 := h1
        simp only [h3, if_false, h2, if_true]
        have h4 := hst (i + 1) (by omega)
        rw [hfull] at h4
        have h5 : past.length + 1 - call_counter_max + i =
            past.length - call_counter_max + (i + 1) := by omega
        rw [h5, List.getD_append _ _ _ _ (by omega)]
        exact h4
  · have hlt : s.call_counter < call_counter_max := by omega
    have hcc2 : s.call_counter = past.length := by omega
    refine ⟨?_, ?_⟩
    · rw [push_cc_of_ne mem s a hfull]
      simp
      omega
    · intro i hi
      rw [push_cc_of_ne mem s a hfull] at hi ⊢
      rw [push_stack_of_ne mem s a hfull]
      simp only [List.length_append, List.length_singleton]
      by_cases h1 : i = s.call_counter
      · subst h1
        simp only [if_pos rfl]
        have h2 : past.length + 1 - (s.call_counter + 1) + s.call_counter =
            past.length := by omega
        rw [h2, List.getD_append_right _ _ _ _ (Nat.le_refl _)]
        simp
      · simp only [h1, if_false]
        have h3 : i < s.call_counter := by omega
        have h4 := hst i h3
        have h5 : past.length + 1 - (s.call_counter + 1) + i =
            past.length - s.call_counter + i := by omega
        rw [h5, List.getD_append _ _ _ _ (by omega)]
        exact h4

theorem push_many_model (mem : TeMem) (addrs : List Nat) :
    ∀ (s : te_decoder_state) (past : List Nat), stack_model_inv mem s past →
      stack_model_inv mem (push_many mem s addrs) (past ++ addrs) := by
  induction addrs with
  | nil => intro s past h; simpa [push_many] using h
  | cons a rest ih =>
    intro s past h
    have h3 := ih (push_return_stack mem s a) (past ++ [a])
      (push_step_model mem s a past h)
    simpa [push_many, List.append_assoc] using h3

theorem init_stack_model (mem : TeMem) : stack_model_inv mem init_decoder [] := by
  refine ⟨by simp [init_decoder], ?_⟩
  intro i hi
  simp [init_decoder] at hi

/-- C5: `push_return_stack`.  When not full, it stores
`link = call_pc + length_of_instruction_at(call_pc)` at index
`call_counter`, increments `call_counter`, and leaves every other slot
unchanged.  When full at capacity `2^(call_counter_width+2)`, it discards
index 0, shifts the remaining elements down by one, and stores the link at
the top, keeping `call_counter` at the capacity.  Consequently, pushing
any list of call addresses onto the freshly opened (empty) stack leaves
the stack holding exactly the links of the most recent
`min length capacity` addresses, in push order (`stack_model_inv`). -/
theorem te_c5_push_return_stack :
    (∀ (mem : TeMem) (s : te_decoder_state) (address : Nat),
      s.call_counter ≠ call_counter_max →
      (push_return_stack mem s address).call_counter = s.call_counter + 1 ∧
      (push_return_stack mem s address).return_stack s.call_counter =
        link_of mem address ∧
      ∀ i, i ≠ s.call_counter →
        (push_return_stack mem s address).return_stack i = s.return_stack i) ∧
    (∀ (mem : TeMem) (s : te_decoder_state) (address : Nat),
      s.call_counter = call_counter_max →
      (push_return_stack mem s address).call_counter = call_counter_max ∧
      (push_return_stack mem s address).return_stack (call_counter_max - 1) =
        link_of mem address ∧
      ∀ i, i < call_counter_max - 1 →
        (push_return_stack mem s address).return_stack i =
          s.return_stack (i + 1)) ∧
    (∀ (mem : TeMem) (addrs : List Nat),
      stack_model_inv mem (push_many mem init_decoder addrs) addrs) := by
  refine ⟨?_, ?_, ?_⟩
  · intro mem s address h
    refine ⟨push_cc_of_ne mem s address h, ?_, ?_⟩
    · rw [push_stack_of_ne mem s address h]
      simp
    · intro i hi
      rw [push_stack_of_ne mem s address h]
      simp [hi]
  · intro mem s address h
    have hmaxpos : 0 < call_counter_max := by decide
    refine ⟨push_cc_of_eq mem s address h, ?_, ?_⟩
    · rw [push_stack_of_eq mem s address h]
      simp
    · intro i hi
      rw [push_stack_of_eq mem s address h]
      have h1 : ¬i = call_counter_max - 1 := by omega
      simp [h1, hi]
  · intro mem addrs
    have h := push_many_model mem addrs init_decoder [] (init_stack_model mem)
    simpa using h

/-- C5 witness: a non-full push of address 256 (slot 0 gets link 260, slot
7 untouched), a full push (stack of 512 entries: top slot gets the link,
slot 3 receives the old slot 4 = 1004), and a two-element push list whose
model places `link_of 20 = 24` at slot 1. -/
theorem te_c5_push_return_stack_witness :
    ((push_return_stack mem_nop init_decoder 256).call_counter = 0 + 1 ∧
      (push_return_stack mem_nop init_decoder 256).return_stack 0 =
        link_of mem_nop 256 ∧
      (push_return_stack mem_nop init_decoder 256).return_stack 7 =
        init_decoder.return_stack 7) ∧
    ((push_return_stack mem_nop c5_full_state 256).call_counter =
        call_counter_max ∧
      (push_return_stack mem_nop c5_full_state 256).return_stack
        (call_counter_max - 1) = link_of mem_nop 256 ∧
      (push_return_stack mem_nop c5_full_state 256).return_stack 3 = 1004) ∧
    stack_model_inv mem_nop (push_many mem_nop init_decoder [12, 20]) [12, 20] ∧
    (push_many mem_nop init_decoder [12, 20]).return_stack 1 = 24 := by
  have h1 := te_c5_push_return_stack.1 mem_nop init_decoder 256 (by decide)
  have h2 := te_c5_push_return_stack.2.1 mem_nop c5_full_state 256 (by decide)
  have h3 := te_c5_push_return_stack.2.2 mem_nop [12, 20]
  refine ⟨⟨h1.1, h1.2.1, h1.2.2 7 (by decide)⟩,
    ⟨h2.1, h2.2.1, (h2.2.2 3 (by decide)).trans (by decide)⟩,
    h3, (h3.2 1 (by decide)).trans (by decide)⟩

theorem push_pc (mem : TeMem) (s : te_decoder_state) (a : Nat) :
    (push_return_stack mem s a).pc = s.pc := by
  unfold push_return_stack
  split <;> rfl

theorem push_branches (mem : TeMem) (s : te_decoder_state) (a : Nat) :
    (push_return_stack mem s a).branches = s.branches := by
  unfold push_return_stack
  split <;> rfl

theorem push_branch_map (mem : TeMem) (s : te_decoder_state) (a : Nat) :
    (push_return_stack mem s a).branch_map = s.branch_map := by
  unfold push_return_stack
  split <;> rfl

theorem push_stop_flag (mem : TeMem) (s : te_decoder_state) (a : Nat) :
    (push_return_stack mem s a).stop_at_last_branch = s.stop_at_last_branch := by
  unfold push_return_stack
  split <;> rfl

theorem push_inferred_flag (mem : TeMem) (s : te_decoder_state) (a : Nat) :
    (push_return_stack mem s a).inferred_address = s.inferred_address := by
  unfold push_return_stack
  split <;> rfl

/-- C2: `next_pc` computes exactly the rule table of the spec
(`next_pc_spec`): one PC rule chosen in the priority order inferrable
jump, sequentially-inferrable jump, implicit return, uninferrable
discontinuity (to the reported address), taken branch, fall-through;
afterwards the pre-step PC is pushed iff the instruction is a call,
`last_pc` is set to the pre-step PC, and exactly one retirement
`(pre-step PC, new PC)` is emitted. -/
theorem te_c2_next_pc_rule_table :
    ∀ (mem : TeMem) (s : te_decoder_state) (address : Nat),
      next_pc mem s address = next_pc_spec mem s address := by
  intro mem s address
  have hpc : ∀ s1 : te_decoder_state,
      (if is_call (get_instr mem s.pc) then push_return_stack mem s1 s.pc
       else s1).pc = s1.pc := by
    intro s1
    split
    · exact push_pc mem s1 s.pc
    · rfl
  unfold next_pc next_pc_spec next_pc_core next_pc_finish is_taken_branch
  cases h1 : is_inferrable_jump (get_instr mem s.pc)
  · cases h2 : is_sequential_jump mem (get_instr mem s.pc) s.last_pc
    · cases h3 : is_implicit_return s (get_instr mem s.pc)
      · cases h4 : is_uninferrable_discon (get_instr mem s.pc)
        · cases h5 : is_branch (get_instr mem s.pc)
          · simp [h1, h2, h3, h4, h5, instruction_size, hpc]
          · by_cases h6 : s.branches = 0
            · simp [h1, h2, h3, h4, h5, h6]
            · simp only [decide_and_one]
              cases h7 : s.branch_map.testBit 0 <;>
                simp [h1, h2, h3, h4, h5, h6, h7, instruction_size, hpc]
        · cases h8 : s.stop_at_last_branch <;>
            simp [h1, h2, h3, h4, h8, instruction_size, hpc]
      · simp [h1, h2, h3, instruction_size, hpc]
    · simp [h1, h2, instruction_size, hpc]
  · simp [h1, instruction_size, hpc]

/-- C3 counterexample.  In the all-`beq` program `mem_beq`, the format-1
packet `c3_pkt` (zero-sentinel: 31 branch bits added to the 1 pending,
`stop_at_last_branch` set) is processed from `c3_state`.  The walk stops
after 31 steps at `pc = 4220`, which equals the reported address
(`non_sync_dispatch` leaves `address = 4220`); the packet format is not
3; `updiscon = msb64 address`; the pending count (1) equals
1-if-branch-else-0 (the instruction at 4220 is a branch); and the previous
instruction (at 4216) is not an uninferrable discontinuity — all the
conditions of the claim hold — yet the returned state (shown by `state_view`)
has `inferred_address = false`: the final-branch stopping condition fires
first and returns without setting `inferred_address`, refuting the claim
as stated. -/
theorem te_c3_counterexample :
    c3_pkt.format ≠ 3 ∧
    c3_pkt.updiscon = msb64 c3_pkt.address ∧
    (non_sync_dispatch c3_state c3_pkt).address = 4220 ∧
    state_view (process_te_inst mem_beq 100 c3_state c3_pkt) =
      some (4220, 4216, 1, 0, false, false) ∧
    is_branch (get_instr mem_beq 4220) = true ∧
    is_uninferrable_discon (get_instr mem_beq 4216) = false := by
  refine ⟨by decide, by decide, by decide, by decide, by decide, by decide⟩

/-- C3 (amended): during `follow_execution_path` for a packet whose format
is not 3, if after a step the current pc equals the reported address, the
packet field `updiscon` equals the MSB of the packet address, the pending
count equals 1-if-branch-else-0, the previous instruction was not an
uninferrable discontinuity, and — the amendment — the final-branch stop
does not apply (`stop_at_last_branch` is not set together with the
instruction at pc being a branch), then the walk sets `inferred_address`
and returns (first conjunct).  A walk entered with `inferred_address` set
steps from the remembered `previous_address` and clears
`inferred_address` exactly when the pc reaches `previous_address` again
(second conjunct); `follow_execution_path` remembers the entry pc — the
earlier stopping address — as `previous_address` (third conjunct). -/
theorem te_c3_inferred_address :
    (∀ (mem : TeMem) (pkt : te_inst) (address prev fuel : Nat)
        (s s1 : te_decoder_state) (tr : List (Nat × Nat)),
      pkt.format ≠ 3 →
      s.inferred_address = false →
      ¬(s.stop_at_last_branch = true ∧ s.branches = 0) →
      next_pc mem s address = Except.ok (s1, tr) →
      s1.pc = address →
      pkt.updiscon = msb64 pkt.address →
      s1.branches = branch_threshold mem s1.pc →
      is_uninferrable_discon (get_instr mem s1.last_pc) = false →
      ¬(s1.stop_at_last_branch = true ∧ is_branch (get_instr mem s1.pc) = true) →
      ∀ acc, follow_loop mem pkt address prev (fuel + 1) s acc =
        Except.ok ({ s1 with inferred_address := true }, acc ++ tr)) ∧
    (∀ (mem : TeMem) (pkt : te_inst) (address prev fuel : Nat)
        (s s1 : te_decoder_state) (tr : List (Nat × Nat)),
      s.inferred_address = true →
      ¬(s.stop_at_last_branch = true ∧ s.branches = 0) →
      next_pc mem s prev = Except.ok (s1, tr) →
      ∀ acc, follow_loop mem pkt address prev (fuel + 1) s acc =
        follow_loop mem pkt address prev fuel
          (if s1.pc = prev then { s1 with inferred_address := false } else s1)
          (acc ++ tr)) ∧
    (∀ (mem : TeMem) (pkt : te_inst) (address fuel : Nat)
        (s : te_decoder_state),
      follow_execution_path mem pkt address fuel s =
        follow_loop mem pkt address s.pc fuel s []) := by
  refine ⟨?_, ?_, ?_⟩
  · intro mem pkt address prev fuel s s1 tr hf hinf hstop hstep hpc hupd hbr
      hprev hamend acc
    rw [follow_loop]
    simp [hstop, hinf, hstep, hf, hpc, hupd, hbr, hprev]
    intro _ hb2 hb3
    rw [← hpc] at hb2
    exact absurd ⟨hb3, hb2⟩ hamend
  · intro mem pkt address prev fuel s s1 tr hinf hstop hstep acc
    rw [follow_loop]
    simp [hstop, hinf, hstep]
  · intro mem pkt address fuel s
    rfl

/-- C3 witness: in the all-`nop` program, a fall-through step from 4096
reaches the reported address 4100 with all the (amended) side conditions
satisfied, and the walk returns with `inferred_address` set; a walk
entered with `inferred_address` set steps from `previous_address = 4100`
and clears the flag on arrival; and `follow_execution_path` passes its
entry pc as `previous_address`. -/
theorem te_c3_inferred_address_witness :
    follow_loop mem_nop c3_pkt 4100 0 1 c3w_state [] =
      Except.ok ({ c3w_state1 with inferred_address := true },
        [(4096, 4100)]) ∧
    follow_loop mem_nop c3_pkt 77 4100 4
      { c3w_state with inferred_address := true } [] =
      follow_loop mem_nop c3_pkt 77 4100 3 c3w_state1 [(4096, 4100)] ∧
    follow_execution_path mem_nop c3_pkt 4100 5 c3w_state =
      follow_loop mem_nop c3_pkt 4100 4096 5 c3w_state [] :=
  ⟨te_c3_inferred_address.1 mem_nop c3_pkt 4100 0 0 c3w_state c3w_state1
      [(4096, 4100)] (by decide) (by decide) (by decide) (by rfl) (by rfl)
      (by decide) (by decide) (by decide) (by decide) [],
   te_c3_inferred_address.2.1 mem_nop c3_pkt 77 4100 3
      { c3w_state with inferred_address := true }
      { c3w_state1 with inferred_address := true } [(4096, 4100)]
      (by decide) (by decide) (by rfl) [],
   te_c3_inferred_address.2.2 mem_nop c3_pkt 4100 5 c3w_state⟩

theorem follow_loop_succ (mem : TeMem) (pkt : te_inst) (address prev fuel : Nat)
    (s : te_decoder_state) (acc : List (Nat × Nat)) :
    follow_loop mem pkt address prev (fuel + 1) s acc =
      (if s.stop_at_last_branch = true ∧ s.branches = 0 then
        Except.error te_error.stop_without_branches
      else if s.inferred_address = true then
        match next_pc mem s prev with
        | Except.error e => Except.error e
        | Except.ok (s1, tr) =>
          follow_loop mem pkt address prev fuel
            (if s1.pc = prev then { s1 with inferred_address := false } else s1)
            (acc ++ tr)
      else
        match next_pc mem s address with
        | Except.error e => Except.error e
        | Except.ok (s1, tr) =>
          if s1.branches = 1 ∧ is_branch (get_instr mem s1.pc) = true ∧
              s1.stop_at_last_branch = true then
            Except.ok ({ s1 with stop_at_last_branch := false }, acc ++ tr)
          else if s1.pc = address ∧
              is_uninferrable_discon (get_instr mem s1.last_pc) = true then
            if branch_threshold mem s1.pc < s1.branches then
              Except.error te_error.unprocessed_branches
            else Except.ok (s1, acc ++ tr)
          else if pkt.format ≠ 3 ∧ s1.pc = address ∧
              pkt.updiscon = msb64 pkt.address ∧
              s1.branches = branch_threshold mem s1.pc then
            Except.ok ({ s1 with inferred_address := true }, acc ++ tr)
          else if pkt.format = 3 ∧ s1.pc = address ∧
              s1.branches = branch_threshold mem s1.pc then
            Except.ok (s1, acc ++ tr)
          else follow_loop mem pkt address prev fuel s1 (acc ++ tr)) := rfl

theorem ntr_loop_succ (mem : TeMem) (prev fuel : Nat) (s : te_decoder_state)
    (acc : List (Nat × Nat)) :
    ntr_loop mem prev (fuel + 1) s acc =
      (match next_pc mem s prev with
      | Except.error e => Except.error e
      | Except.ok (s1, tr) =>
        if s1.pc = prev then Except.ok (s1, acc ++ tr)
        else ntr_loop mem prev fuel s1 (acc ++ tr)) := rfl

theorem branch_threshold_le_one (mem : TeMem) (pc : Nat) :
    branch_threshold mem pc ≤ 1 := by
  unfold branch_threshold
  split <;> omega

theorem or_shift_lt (a b n m : Nat) (ha : a < 2 ^ n) (hb : b < 2 ^ m) :
    a ||| (b <<< n) < 2 ^ (n + m) := by
  apply Nat.or_lt_two_pow
  · exact lt_of_lt_of_le ha (Nat.pow_le_pow_right (by norm_num) (by omega))
  · rw [Nat.shiftLeft_eq, pow_add, Nat.mul_comm (2 ^ n) (2 ^ m)]
    exact Nat.mul_lt_mul_of_lt_of_le hb (Nat.le_refl _) (by positivity)

theorem is_taken_branch_inv (s : te_decoder_state)
    (instr : te_decoded_instruction) (b : Bool) (s1 : te_decoder_state)
    (h : is_taken_branch s instr = Except.ok (b, s1)) :
    s1.branches ≤ s.branches ∧
    (s.branch_map < 2 ^ s.branches → s1.branch_map < 2 ^ s1.branches) ∧
    s1.stop_at_last_branch = s.stop_at_last_branch ∧
    s1.inferred_address = s.inferred_address := by
  unfold is_taken_branch at h
  by_cases h5 : is_branch instr = false
  · rw [if_pos h5] at h
    cases h
    exact ⟨Nat.le_refl _, fun hb => hb, rfl, rfl⟩
  · rw [if_neg h5] at h
    by_cases h6 : s.branches = 0
    · rw [if_pos h6] at h
      cases h
    · rw [if_neg h6] at h
      cases h
      refine ⟨Nat.sub_le _ _, ?_, rfl, rfl⟩
      intro hb
      show s.branch_map >>> 1 < 2 ^ (s.branches - 1)
      rw [Nat.shiftRight_eq_div_pow, pow_one,
        Nat.div_lt_iff_lt_mul (by norm_num)]
      calc s.branch_map < 2 ^ s.branches := hb
        _ = 2 ^ (s.branches - 1) * 2 := by
            rw [← pow_succ]
            congr 1
            omega

theorem next_pc_core_inv (mem : TeMem) (s : te_decoder_state) (address : Nat)
    (s1 : te_decoder_state) (h : next_pc_core mem s address = Except.ok s1) :
    s1.branches ≤ s.branches ∧
    (s.branch_map < 2 ^ s.branches → s1.branch_map < 2 ^ s1.branches) ∧
    s1.stop_at_last_branch = s.stop_at_last_branch ∧
    s1.inferred_address = s.inferred_address := by
  unfold next_pc_core at h
  by_cases h1 : is_inferrable_jump (get_instr mem s.pc) = true
  · rw [if_pos h1] at h
    cases h
    exact ⟨Nat.le_refl _, fun hb => hb, rfl, rfl⟩
  · rw [if_neg h1] at h
    by_cases h2 : is_sequential_jump mem (get_instr mem s.pc) s.last_pc = true
    · rw [if_pos h2] at h
      cases h
      exact ⟨Nat.le_refl _, fun hb => hb, rfl, rfl⟩
    · rw [if_neg h2] at h
      by_cases h3 : is_implicit_return s (get_instr mem s.pc) = true
      · rw [if_pos h3] at h
        cases h
        exact ⟨Nat.le_refl _, fun hb => hb, rfl, rfl⟩
      · rw [if_neg h3] at h
        by_cases h4 : is_uninferrable_discon (get_instr mem s.pc) = true
        · rw [if_pos h4] at h
          by_cases h5 : s.stop_at_last_branch = true
          · rw [if_pos h5] at h
            cases h
          · rw [if_neg h5] at h
            cases h
            exact ⟨Nat.le_refl _, fun hb => hb, rfl, rfl⟩
        · rw [if_neg h4] at h
          cases htb : is_taken_branch s (get_instr mem s.pc) with
          | error e =>
            rw [htb] at h
            cases h
          | ok p =>
            obtain ⟨b, s2⟩ := p
            rw [htb] at h
            have h6 := is_taken_branch_inv s _ b s2 htb
            cases b <;> simp only [Bool.false_eq_true, if_false, if_true] at h <;>
              cases h <;> exact ⟨h6.1, h6.2.1, h6.2.2.1, h6.2.2.2⟩

theorem next_pc_finish_fields (mem : TeMem) (instr : te_decoded_instruction)
    (t : Nat) (s2 : te_decoder_state) :
    (next_pc_finish mem instr t s2).1.branches = s2.branches ∧
    (next_pc_finish mem instr t s2).1.branch_map = s2.branch_map ∧
    (next_pc_finish mem instr t s2).1.stop_at_last_branch =
      s2.stop_at_last_branch ∧
    (next_pc_finish mem instr t s2).1.inferred_address = s2.inferred_address := by
  unfold next_pc_finish
  by_cases hc : is_call instr = true <;>
    simp [hc, push_branches, push_branch_map, push_stop_flag, push_inferred_flag]

theorem next_pc_inv (mem : TeMem) (s : te_decoder_state) (address : Nat)
    (s1 : te_decoder_state) (tr : List (Nat × Nat))
    (h : next_pc mem s address = Except.ok (s1, tr)) :
    s1.branches ≤ s.branches ∧
    (s.branch_map < 2 ^ s.branches → s1.branch_map < 2 ^ s1.branches) ∧
    s1.stop_at_last_branch = s.stop_at_last_branch ∧
    s1.inferred_address = s.inferred_address := by
  unfold next_pc at h
  cases hc : next_pc_core mem s address with
  | error e =>
    rw [hc] at h
    cases h
  | ok s2 =>
    rw [hc] at h
    have h2 := next_pc_core_inv mem s address s2 hc
    have h3 := next_pc_finish_fields mem (get_instr mem s.pc) s.pc s2
    injection h with h4
    have h5 : (next_pc_finish mem (get_instr mem s.pc) s.pc s2).1 = s1 := by
      rw [h4]
    rw [h5] at h3
    obtain ⟨f1, f2, f3, f4⟩ := h3
    refine ⟨?_, ?_, ?_, ?_⟩
    · rw [f1]
      exact h2.1
    · intro hb
      rw [f1, f2]
      exact h2.2.1 hb
    · rw [f3]
      exact h2.2.2.1
    · rw [f4]
      exact h2.2.2.2

theorem follow_loop_inv (mem : TeMem) (pkt : te_inst) (address prev : Nat) :
    ∀ (fuel : Nat) (s : te_decoder_state) (acc : List (Nat × Nat))
      (s1 : te_decoder_state) (tr : List (Nat × Nat)),
      s.branch_map < 2 ^ s.branches →
      follow_loop mem pkt address prev fuel s acc = Except.ok (s1, tr) →
      s1.branches ≤ 1 ∧ s1.branch_map < 2 ^ s1.branches := by
  intro fuel
  induction fuel with
  | zero =>
    intro s acc s1 tr hbm h
    rw [follow_loop] at h
    cases h
  | succ fuel ih =>
    intro s acc s1 tr hbm h
    rw [follow_loop_succ] at h
    by_cases hstop : s.stop_at_last_branch = true ∧ s.branches = 0
    · rw [if_pos hstop] at h
      cases h
    · rw [if_neg hstop] at h
      by_cases hinf : s.inferred_address = true
      · rw [if_pos hinf] at h
        cases hnp : next_pc mem s prev with
        | error e =>
          rw [hnp] at h
          cases h
        | ok p =>
          obtain ⟨s2, tr2⟩ := p
          rw [hnp] at h
          simp only [] at h
          have h4 := next_pc_inv mem s prev s2 tr2 hnp
          have hbm2 : s2.branch_map < 2 ^ s2.branches := h4.2.1 hbm
          by_cases hp2 : s2.pc = prev
          · rw [if_pos hp2] at h
            refine ih _ _ _ _ ?_ h
            exact hbm2
          · rw [if_neg hp2] at h
            exact ih _ _ _ _ hbm2 h
      · rw [if_neg hinf] at h
        cases hnp : next_pc mem s address with
        | error e =>
          rw [hnp] at h
          cases h
        | ok p =>
          obtain ⟨s2, tr2⟩ := p
          rw [hnp] at h
          simp only [] at h
          have h4 := next_pc_inv mem s address s2 tr2 hnp
          have hbm2 : s2.branch_map < 2 ^ s2.branches := h4.2.1 hbm
          have hthr := branch_threshold_le_one mem s2.pc
          by_cases hc1 : s2.branches = 1 ∧ is_branch (get_instr mem s2.pc) = true ∧
              s2.stop_at_last_branch = true
          · rw [if_pos hc1] at h
            cases h
            refine ⟨?_, hbm2⟩
            show s2.branches ≤ 1
            omega
          · rw [if_neg hc1] at h
            by_cases hc2 : s2.pc = address ∧
                is_uninferrable_discon (get_instr mem s2.last_pc) = true
            · rw [if_pos hc2] at h
              by_cases hc2b : branch_threshold mem s2.pc < s2.branches
              · rw [if_pos hc2b] at h
                cases h
              · rw [if_neg hc2b] at h
                cases h
                exact ⟨by omega, hbm2⟩
            · rw [if_neg hc2] at h
              by_cases hc3 : pkt.format ≠ 3 ∧ s2.pc = address ∧
                  pkt.updiscon = msb64 pkt.address ∧
                  s2.branches = branch_threshold mem s2.pc
              · rw [if_pos hc3] at h
                cases h
                refine ⟨?_, hbm2⟩
                show s2.branches ≤ 1
                omega
              · rw [if_neg hc3] at h
                by_cases hc4 : pkt.format = 3 ∧ s2.pc = address ∧
                    s2.branches = branch_threshold mem s2.pc
                · rw [if_pos hc4] at h
                  cases h
                  exact ⟨by omega, hbm2⟩
                · rw [if_neg hc4] at h
                  exact ih _ _ _ _ hbm2 h

theorem ntr_loop_inv (mem : TeMem) (prev : Nat) :
    ∀ (fuel : Nat) (s : te_decoder_state) (acc : List (Nat × Nat))
      (s1 : te_decoder_state) (tr : List (Nat × Nat)),
      branch_inv s →
      ntr_loop mem prev fuel s acc = Except.ok (s1, tr) →
      branch_inv s1 := by
  intro fuel
  induction fuel with
  | zero =>
    intro s acc s1 tr hJ h
    rw [ntr_loop] at h
    cases h
  | succ fuel ih =>
    intro s acc s1 tr hJ h
    rw [ntr_loop_succ] at h
    cases hnp : next_pc mem s prev with
    | error e =>
      rw [hnp] at h
      cases h
    | ok p =>
      obtain ⟨s2, tr2⟩ := p
      rw [hnp] at h
      simp only [] at h
      have h4 := next_pc_inv mem s prev s2 tr2 hnp
      have hJ2 : branch_inv s2 := ⟨le_trans h4.1 hJ.1, h4.2.1 hJ.2⟩
      by_cases hp2 : s2.pc = prev
      · rw [if_pos hp2] at h
        cases h
        exact hJ2
      · rw [if_neg hp2] at h
        exact ih _ _ _ _ hJ2 h

theorem non_sync_dispatch_bound (s : te_decoder_state) (p : te_inst)
    (hJ : branch_inv s) (hwf : wf_te_inst p) :
    (non_sync_dispatch s p).branch_map < 2 ^ (non_sync_dispatch s p).branches := by
  unfold non_sync_dispatch
  by_cases h1 : p.format = 1
  · have h2 : ¬p.format = 2 := by omega
    have hcount := (hwf.1 h1).2
    by_cases hb0 : p.branches = 0
    · simp [h1, h2, hb0]
      have hbm31 : p.branch_map < 2 ^ 31 := by simpa [hb0] using hcount
      exact or_shift_lt _ _ _ _ hJ.2 hbm31
    · simp [h1, h2, hb0]
      have hbmC : p.branch_map < 2 ^ p.branches := by simpa [hb0] using hcount
      exact or_shift_lt _ _ _ _ hJ.2 hbmC
  · by_cases h2 : p.format = 2 ∨ p.branches ≠ 0 <;>
      simp [h1, h2] <;> exact hJ.2

theorem sync_dispatch_bound (mem : TeMem) (s : te_decoder_state) (p : te_inst)
    (hJ : branch_inv s) :
    (sync_dispatch mem s p).branch_map < 2 ^ (sync_dispatch mem s p).branches ∧
    (p.subformat = 1 ∨ s.start_of_trace = true →
      (sync_dispatch mem s p).branches ≤ 1) := by
  have hbit : (if p.branch then (1 : Nat) else 0) < 2 ^ 1 := by
    split <;> norm_num
  unfold sync_dispatch
  by_cases hr : p.subformat = 1 ∨ s.start_of_trace = true
  · simp only [hr, if_true, ite_true]
    split
    · refine ⟨?_, fun _ => by simp⟩
      simpa using hbit
    · refine ⟨?_, fun _ => by simp⟩
      simp
  · simp only [hr, if_false, ite_false]
    split
    · refine ⟨?_, fun habs => habs.elim⟩
      have h2 := or_shift_lt s.branch_map (if p.branch then 1 else 0)
        s.branches 1 hJ.2 hbit
      simpa using h2
    · refine ⟨?_, fun habs => habs.elim⟩
      simpa using hJ.2

theorem sync_dispatch_start (mem : TeMem) (s : te_decoder_state) (p : te_inst) :
    (sync_dispatch mem s p).start_of_trace = s.start_of_trace := by
  unfold sync_dispatch
  by_cases hr : p.subformat = 1 ∨ s.start_of_trace = true <;>
    simp only [hr, if_true, if_false, ite_true, ite_false] <;> split <;> rfl

theorem process_te_inst_inv (mem : TeMem) (fuel : Nat) (s : te_decoder_state)
    (p : te_inst) (s1 : te_decoder_state) (tr : List (Nat × Nat))
    (hJ : branch_inv s) (hwf : wf_te_inst p)
    (h : process_te_inst mem fuel s p = Except.ok (s1, tr)) :
    branch_inv s1 := by
  unfold process_te_inst at h
  by_cases h3 : p.format = 3
  · rw [if_pos h3] at h
    simp only [] at h
    have hb := sync_dispatch_bound mem s p hJ
    by_cases hw : p.subformat = 0 ∧ (sync_dispatch mem s p).start_of_trace = false
    · rw [if_pos hw] at h
      cases hfe : follow_execution_path mem p (sync_dispatch mem s p).address
          fuel (sync_dispatch mem s p) with
      | error e =>
        rw [hfe] at h
        cases h
      | ok q =>
        obtain ⟨s3, tr3⟩ := q
        rw [hfe] at h
        simp only [] at h
        have hfe2 : follow_loop mem p (sync_dispatch mem s p).address
            (sync_dispatch mem s p).pc fuel (sync_dispatch mem s p) [] =
            Except.ok (s3, tr3) := hfe
        have h5 := follow_loop_inv mem p (sync_dispatch mem s p).address
          (sync_dispatch mem s p).pc fuel (sync_dispatch mem s p) [] s3 tr3
          hb.1 hfe2
        cases h
        exact ⟨h5.1, h5.2⟩
    · rw [if_neg hw] at h
      cases h
      have hsub := hwf.2 h3
      rw [sync_dispatch_start] at hw
      have hreset : p.subformat = 1 ∨ s.start_of_trace = true := by
        by_cases hs0 : p.subformat = 0
        · right
          cases hst : s.start_of_trace
          · exact absurd ⟨hs0, hst⟩ hw
          · rfl
        · left
          omega
      have hble := hb.2 hreset
      exact ⟨hble, hb.1⟩
  · rw [if_neg h3] at h
    by_cases hstart : s.start_of_trace = true
    · rw [if_pos hstart] at h
      cases h
    · rw [if_neg hstart] at h
      simp only [] at h
      have hbd := non_sync_dispatch_bound s p hJ hwf
      have h2 : follow_loop mem p (non_sync_dispatch s p).address
          (non_sync_dispatch s p).pc fuel (non_sync_dispatch s p) [] =
          Except.ok (s1, tr) := h
      exact follow_loop_inv mem p (non_sync_dispatch s p).address
        (non_sync_dispatch s p).pc fuel (non_sync_dispatch s p) [] s1 tr hbd h2

theorem process_te_support_inv (mem : TeMem) (fuel : Nat)
    (s : te_decoder_state) (p : te_support_packet) (s1 : te_decoder_state)
    (tr : List (Nat × Nat)) (hJ : branch_inv s)
    (h : process_te_support mem fuel s p = Except.ok (s1, tr)) :
    branch_inv s1 := by
  unfold process_te_support at h
  by_cases h0 : p.support_type = 0
  · rw [if_pos h0] at h
    simp only [] at h
    by_cases hq : p.qual_status = te_qual_status.ended_ntr ∨
        p.qual_status = te_qual_status.ended_rep
    · rw [if_pos hq] at h
      by_cases hw : p.qual_status = te_qual_status.ended_ntr ∧
          ({ s with start_of_trace := true } : te_decoder_state).inferred_address =
            true
      · rw [if_pos hw] at h
        refine ntr_loop_inv mem _ fuel _ [] s1 tr ?_ h
        exact ⟨hJ.1, hJ.2⟩
      · rw [if_neg hw] at h
        cases h
        exact ⟨hJ.1, hJ.2⟩
    · rw [if_neg hq] at h
      by_cases hw : p.qual_status = te_qual_status.ended_ntr ∧
          s.inferred_address = true
      · rw [if_pos hw] at h
        refine ntr_loop_inv mem _ fuel _ [] s1 tr ?_ h
        exact ⟨hJ.1, hJ.2⟩
      · rw [if_neg hw] at h
        cases h
        exact hJ
  · rw [if_neg h0] at h
    cases h
    exact hJ

theorem reachable_inv (mem : TeMem) (s : te_decoder_state)
    (h : reachable mem s) : branch_inv s := by
  induction h with
  | init => exact ⟨by decide, by decide⟩
  | inst_step s p fuel s1 tr hr hwf hp ih =>
    exact process_te_inst_inv mem fuel s p s1 tr ih hwf hp
  | support_step s p fuel s1 tr hr hp ih =>
    exact process_te_support_inv mem fuel s p s1 tr ih hp

/-- C8 counterexample.  From the freshly opened decoder, 33 format-3
subformat-2 packets (all fields within their declared widths) whose
shifted addresses decode to branch instructions drive `branches` to 33:
the claimed bound `branches ≤ 32` fails.  Subformat 2 neither resets the
pending-branch bookkeeping (that needs subformat 1 or start-of-trace) nor
walks (that needs subformat 0), yet each such packet increments
`branches` when the instruction at the reported address is a branch. -/
theorem te_c8_counterexample :
    state_view (run_te_insts mem_beq 1 init_decoder c8_packets) =
      some (66, 66, 33, 0, false, false) ∧
    ¬(33 ≤ 32) ∧
    (∀ q ∈ c8_packets,
      q.format = 3 ∧ q.subformat = 2 ∧ q.branches = 0 ∧ q.branch_map = 0) := by
  refine ⟨by decide, by decide, by decide⟩

/-- C8 (amended): after processing any well-formed `te_inst` packet
(`wf_te_inst`: a format-1 packet has at most 31 branches and no
`branch_map` bits above its effective count; a format-3 packet has
subformat 0 or 1) from any state reachable from the freshly opened decoder
by well-formed packets, the decoder satisfies `branches ≤ 32` (indeed
`branches ≤ 1` holds between packets) and every `branch_map` bit at
position `branches` or above is zero. -/
theorem te_c8_branch_map_invariant :
    ∀ (mem : TeMem) (s : te_decoder_state) (p : te_inst) (fuel : Nat)
      (s1 : te_decoder_state) (tr : List (Nat × Nat)),
      reachable mem s → wf_te_inst p →
      process_te_inst mem fuel s p = Except.ok (s1, tr) →
      s1.branches ≤ 32 ∧
      ∀ k, s1.branches ≤ k → s1.branch_map.testBit k = false := by
  intro mem s p fuel s1 tr hr hwf h
  have hJ := reachable_inv mem s hr
  have h2 := process_te_inst_inv mem fuel s p s1 tr hJ hwf h
  refine ⟨by have := h2.1; omega, ?_⟩
  intro k hk
  exact Nat.testBit_eq_false_of_lt
    (lt_of_lt_of_le h2.2 (Nat.pow_le_pow_right (by norm_num) hk))

/-- C8 witness: processing the sync packet `c8w_pkt` on the freshly opened
decoder yields `c8w_state`, which satisfies the invariant. -/
theorem te_c8_branch_map_invariant_witness :
    c8w_state.branches ≤ 32 ∧
    ∀ k, c8w_state.branches ≤ k → c8w_state.branch_map.testBit k = false :=
  te_c8_branch_map_invariant mem_nop init_decoder c8w_pkt 1 c8w_state
    [(sentinel_bad_address, 4096)] reachable.init
    ⟨fun h => absurd h (by decide), fun _ => by decide⟩ (by rfl)
